import Mathlib

/-!
Verification of the git-mcp-server command adapter (src/git_mcp_server.py).

The adapter is six handlers, each of which builds a git command line, runs it
through `subprocess.run`, and normalizes the outcome into a result dictionary.
We embed the external world as an oracle from command lines to outcomes: a
launch can fail abnormally (Python exception carrying a message) or produce an
`ExecResult` with an exit code, stdout and stderr.  Each handler becomes a pure
Lean function from the oracle and its parameters to the returned dictionary
together with the ordered trace of command lines it handed to `subprocess.run`.
-/

/-- The characters Python's `str.strip()` removes (ASCII subset; the source
only ever strips git output, which is ASCII). -/
def isPySpace (c : Char) : Bool :=
  c = ' ' || c = '\t' || c = '\n' || c = '\r' || c = '\x0b' || c = '\x0c'

/-- Leading/trailing whitespace removal on the character list, as Python's
`str.strip()` does it. -/
def pyStripCore (l : List Char) : List Char :=
  ((l.dropWhile isPySpace).reverse.dropWhile isPySpace).reverse

/-- Python `s.strip()`. -/
def pyStrip (s : String) : String :=
  ⟨pyStripCore s.data⟩

/-- A character of the set passed to `lstrip("* ")` in the source. -/
def isStarOrSpace (c : Char) : Bool :=
  c = '*' || c = ' '

/-- Python `s.lstrip("* ")`: remove every leading character drawn from the
two-character set. -/
def pyLstripStarSpace (s : String) : String :=
  ⟨s.data.dropWhile isStarOrSpace⟩

/-- Python `s.split("\n")` on the character list: empty pieces are kept, and
the empty text yields one empty piece. -/
def splitNlCore : List Char → List (List Char)
  | [] => [[]]
  | c :: cs =>
    if c = '\n' then [] :: splitNlCore cs
    else
      match splitNlCore cs with
      | [] => [[c]]
      | h :: t => (c :: h) :: t

/-- Python `s.split("\n")`. -/
def pySplitNl (s : String) : List String :=
  (splitNlCore s.data).map fun l => ⟨l⟩

/-- A command line handed to `subprocess.run`. -/
abbrev Cmd := List String

/-- What `subprocess.run` captured for one invocation. -/
structure ExecResult where
  returncode : Int
  stdout : String
  stderr : String
deriving DecidableEq

/-- Outcome of trying to launch one external command: either the process ran
and produced an `ExecResult`, or launching raised an exception whose `str` is
the carried message. -/
inductive LaunchOutcome where
  | ok (r : ExecResult)
  | err (msg : String)
deriving DecidableEq

/-- The external world: what each command line would do right now.  One fixed
oracle models one repository state with no intervening mutation. -/
abbrev World := Cmd → LaunchOutcome

/-- A value stored in a result dictionary. -/
inductive Value where
  | vBool (b : Bool)
  | vStr (s : String)
  | vList (l : List String)
deriving DecidableEq

/-- A Python result dictionary: ordered key/value pairs. -/
abbrev Dict := List (String × Value)

/-- The uniform fallback every handler's `except` clause returns:
`{"success": False, "error": str(e)}`. -/
def errResp (m : String) : Dict :=
  [("success", Value.vBool false), ("error", Value.vStr m)]

/-- Message of Python's `CalledProcessError` (abstracted rendering; no claim
inspects its text, only that a message string is carried). -/
def cpeMsg (cmd : Cmd) (code : Int) : String :=
  "Command [" ++ String.intercalate ", " cmd ++ "] returned non-zero exit status "
    ++ toString code ++ "."

/-- `subprocess.run(cmd, check=True)`: `none` when the call ran and exited 0,
`some msg` when launching raised or the exit code was non-zero (in which case
`CalledProcessError` is raised, caught upstream as its message). -/
def runChecked (w : World) (c : Cmd) : Option String :=
  match w c with
  | .err m => some m
  | .ok r => if r.returncode = 0 then none else some (cpeMsg c r.returncode)

/-- Command line built by `git_clone`: `["git", "clone", repository_url]`,
with the destination appended only when `if destination:` is truthy, i.e. the
option is present and the string non-empty. -/
def cloneCmd (url : String) (dest : Option String) : Cmd :=
  match dest with
  | none => ["git", "clone", url]
  | some d => if d = "" then ["git", "clone", url] else ["git", "clone", url, d]

def addCmd (f : String) : Cmd := ["git", "add", f]

def addAllCmd : Cmd := ["git", "add", "."]

def commitCmd (msg : String) : Cmd := ["git", "commit", "-m", msg]

def pushCmd (remote branch : String) : Cmd := ["git", "push", remote, branch]

def statusCmd : Cmd := ["git", "status", "--porcelain"]

def branchListCmd : Cmd := ["git", "branch", "-a"]

def branchCmd (name : String) : Cmd := ["git", "branch", name]

def checkoutCmd (name : String) : Cmd := ["git", "checkout", name]

/-- `git_clone`: run the clone command, return
`{"success": returncode == 0, "output": stdout, "error": stderr}`, or the
uniform fallback when the launch raised.  Second component: the trace of
commands handed to `subprocess.run`. -/
def git_clone (w : World) (repository_url : String)
    (destination : Option String := none) : Dict × List Cmd :=
  let cmd := cloneCmd repository_url destination
  match w cmd with
  | .err m => (errResp m, [cmd])
  | .ok r =>
      ([("success", Value.vBool (r.returncode == 0)),
        ("output", Value.vStr r.stdout),
        ("error", Value.vStr r.stderr)], [cmd])

/-- The `for file in files: subprocess.run(["git", "add", file], check=True)`
loop: stops at the first staging call that raises, recording the commands
issued so far; first component is the raised message, if any. -/
def stageLoop (w : World) : List String → Option String × List Cmd
  | [] => (none, [])
  | f :: fs =>
    match runChecked w (addCmd f) with
    | some m => (some m, [addCmd f])
    | none =>
      let rest := stageLoop w fs
      (rest.1, addCmd f :: rest.2)

/-- Phase 1 of `git_commit`: `if files:` is Python truthiness, so a present
non-empty list stages each path in order, while `None` or the empty list
stages the whole tree with one `git add .`. -/
def stagePhase (w : World) (files : Option (List String)) :
    Option String × List Cmd :=
  match files with
  | some (f :: fs) => stageLoop w (f :: fs)
  | some [] => (runChecked w addAllCmd, [addAllCmd])
  | none => (runChecked w addAllCmd, [addAllCmd])

/-- `git_commit`: stage (phase 1), then run `git commit -m message` capturing
output, returning `{"success": returncode == 0, "commit_message": message,
"output": stdout}`; any exception from either phase is caught and becomes the
uniform fallback. -/
def git_commit (w : World) (message : String)
    (files : Option (List String) := none) : Dict × List Cmd :=
  match stagePhase w files with
  | (some m, tr) => (errResp m, tr)
  | (none, tr) =>
    match w (commitCmd message) with
    | .err m => (errResp m, tr ++ [commitCmd message])
    | .ok r =>
        ([("success", Value.vBool (r.returncode == 0)),
          ("commit_message", Value.vStr message),
          ("output", Value.vStr r.stdout)], tr ++ [commitCmd message])

/-- `git_push`: one `git push remote branch` invocation, defaults
`"origin"`/`"main"`. -/
def git_push (w : World) (remote : String := "origin")
    (branch : String := "main") : Dict × List Cmd :=
  let cmd := pushCmd remote branch
  match w cmd with
  | .err m => (errResp m, [cmd])
  | .ok r =>
      ([("success", Value.vBool (r.returncode == 0)),
        ("output", Value.vStr r.stdout),
        ("error", Value.vStr r.stderr)], [cmd])

/-- `git_status`: run `git status --porcelain`, return the raw stdout verbatim
and `clean = (len(stdout.strip()) == 0)`. -/
def git_status (w : World) : Dict × List Cmd :=
  match w statusCmd with
  | .err m => (errResp m, [statusCmd])
  | .ok r =>
      ([("success", Value.vBool (r.returncode == 0)),
        ("status", Value.vStr r.stdout),
        ("clean", Value.vBool ((pyStrip r.stdout).length == 0))], [statusCmd])

/-- The branch-name extraction of `git_branch_list`:
`[b.strip().lstrip("* ") for b in stdout.split("\n") if b.strip()]`. -/
def gitBranchParse (stdout : String) : List String :=
  ((pySplitNl stdout).filter fun b => pyStrip b != "").map
    fun b => pyLstripStarSpace (pyStrip b)

/-- `git_branch_list`: run `git branch -a` and return
`{"success": returncode == 0, "branches": <parsed stdout>}`; the branches are
computed from stdout whatever the exit code was. -/
def git_branch_list (w : World) : Dict × List Cmd :=
  match w branchListCmd with
  | .err m => (errResp m, [branchListCmd])
  | .ok r =>
      ([("success", Value.vBool (r.returncode == 0)),
        ("branches", Value.vList (gitBranchParse r.stdout))], [branchListCmd])

/-- `git_create_branch`: run `git branch name` capturing output; only when
that exited 0 and `checkout` holds, run `git checkout name` with `check=True`
(so a failing switch raises, and the `except` clause returns the uniform
fallback); otherwise return `{"success": creation returncode == 0,
"branch": name, "checked_out": checkout}`. -/
def git_create_branch (w : World) (branch_name : String)
    (checkout : Bool := true) : Dict × List Cmd :=
  match w (branchCmd branch_name) with
  | .err m => (errResp m, [branchCmd branch_name])
  | .ok r =>
    if checkout && (r.returncode == 0) then
      match runChecked w (checkoutCmd branch_name) with
      | some m => (errResp m, [branchCmd branch_name, checkoutCmd branch_name])
      | none =>
          ([("success", Value.vBool (r.returncode == 0)),
            ("branch", Value.vStr branch_name),
            ("checked_out", Value.vBool checkout)],
           [branchCmd branch_name, checkoutCmd branch_name])
    else
      ([("success", Value.vBool (r.returncode == 0)),
        ("branch", Value.vStr branch_name),
        ("checked_out", Value.vBool checkout)], [branchCmd branch_name])

/-- Modelled from the spec sentence behind the branch-list claim: after
discarding lines empty after trimming, each kept line has its leading
whitespace stripped and then one leading current-branch marker character plus
one following space removed. -/
def specLineClean (s : String) : String :=
  match s.data.dropWhile isPySpace with
  | '*' :: ' ' :: rest => ⟨rest⟩
  | t => ⟨t⟩

/-- The branch-list parse exactly as the claim words it. -/
def specBranchParse (raw : String) : List String :=
  ((pySplitNl raw).filter fun b => pyStrip b != "").map specLineClean

/-- Modelled from the amended claim: each kept line is trimmed of leading and
trailing whitespace and then stripped of every leading character that is the
marker `*` or a space. -/
def amendedLineClean (s : String) : String :=
  ⟨(((s.data.dropWhile isPySpace).reverse.dropWhile isPySpace).reverse).dropWhile
    fun c => c = '*' || c = ' '⟩

/-- The branch-list parse as the amended claim words it. -/
def amendedBranchParse (raw : String) : List String :=
  ((pySplitNl raw).filter fun b => pyStrip b != "").map amendedLineClean

/-- The response dictionary carries a boolean under the key `"success"`. -/
def hasBoolSuccess (d : Dict) : Prop :=
  ∃ b, d.lookup "success" = some (Value.vBool b)

theorem dropWhile_all_of_all {p : Char → Bool} {l : List Char}
    (h : ∀ c ∈ l.dropWhile p, p c) : ∀ c ∈ l, p c := by
  intro c hc
  rw [← List.takeWhile_append_dropWhile (p := p) (l := l)] at hc
  rcases List.mem_append.mp hc with h1 | h2
  · exact List.mem_takeWhile_imp h1
  · exact h c h2

/-- The stripped character list is empty exactly when every character was
whitespace. -/
theorem pyStripCore_eq_nil_iff (l : List Char) :
    pyStripCore l = [] ↔ ∀ c ∈ l, isPySpace c := by
  unfold pyStripCore
  rw [List.reverse_eq_nil_iff, List.dropWhile_eq_nil_iff]
  constructor
  · intro h
    apply dropWhile_all_of_all
    intro c hc
    exact h c (List.mem_reverse.mpr hc)
  · intro h c hc
    exact h c ((List.dropWhile_sublist _).subset (List.mem_reverse.mp hc))

/-- A world in which every launch succeeds with exit 0. -/
def wOk : World := fun _ => .ok ⟨0, "out", "err"⟩

/-- A world in which every launch raises. -/
def wErr : World := fun _ => .err "boom"

/-- C4: the claim states the per-line cleanup as stripping leading whitespace
and one marker-plus-space; the code instead trims both ends and strips every
leading marker-or-space character.  On the line consisting of a marker, two
spaces and a name they disagree. -/
theorem git_branch_parse_claim_cex :
    gitBranchParse "*  a" ≠ specBranchParse "*  a" := by decide

/-- C4 (amended): for every raw output, BranchList yields the sequence
obtained by splitting on line breaks, discarding lines empty after trimming,
and for each kept line trimming leading and trailing whitespace and then
removing every leading marker-or-space character; in particular
"* main\n  feature-x\n\n" yields ["main", "feature-x"]. -/
theorem git_branch_parse_amended (raw : String) :
    gitBranchParse raw = amendedBranchParse raw ∧
    gitBranchParse "* main\n  feature-x\n\n" = ["main", "feature-x"] := by
  refine ⟨?_, by decide⟩
  rfl

/-- C5: when the status process launches, the response is
{success = exit == 0, status = raw stdout verbatim,
clean = emptiness of the trimmed stdout}, and clean is true exactly when every
character of the raw output is whitespace. -/
theorem git_status_clean_spec (w : World) (r : ExecResult)
    (h : w statusCmd = .ok r) :
    (git_status w).1 = [("success", Value.vBool (r.returncode == 0)),
        ("status", Value.vStr r.stdout),
        ("clean", Value.vBool ((pyStrip r.stdout).length == 0))] ∧
    (((pyStrip r.stdout).length == 0) = true ↔ ∀ c ∈ r.stdout.data, isPySpace c) := by
  refine ⟨by simp [git_status, h], ?_⟩
  show ((pyStripCore r.stdout.data).length == 0) = true ↔ _
  rw [beq_iff_eq, List.length_eq_zero, pyStripCore_eq_nil_iff]

/-- A status world: exit 0 with whitespace-only porcelain output. -/
def wStatusEx : World := fun c =>
  if c = statusCmd then .ok ⟨0, " \n", ""⟩ else .err "unused"

theorem git_status_clean_spec_witness :
    (git_status wStatusEx).1 = [("success", Value.vBool true),
        ("status", Value.vStr " \n"), ("clean", Value.vBool true)] := by
  have h := git_status_clean_spec wStatusEx ⟨0, " \n", ""⟩ rfl
  rw [h.1]; decide

/-- C6: the claim says a present destination is appended; the code tests
Python truthiness, so a present empty-string destination is dropped. -/
theorem git_clone_claim_cex :
    (git_clone wOk "u" (some "")).2 ≠ [["git", "clone", "u", ""]] := by decide

/-- C6 (amended): the clone command is `git clone repository_url`, with the
destination appended only when present and non-empty (any url string passes
through unvalidated); on a launched process the response is
{success = exit == 0, output = stdout, error = stderr}. -/
theorem git_clone_amended (w : World) (url : String) (dest : Option String)
    (r : ExecResult) (h : w (cloneCmd url dest) = .ok r) :
    (git_clone w url dest).2 = [cloneCmd url dest] ∧
    cloneCmd url none = ["git", "clone", url] ∧
    (∀ d, d ≠ "" → cloneCmd url (some d) = ["git", "clone", url, d]) ∧
    cloneCmd url (some "") = ["git", "clone", url] ∧
    (git_clone w url dest).1 = [("success", Value.vBool (r.returncode == 0)),
        ("output", Value.vStr r.stdout), ("error", Value.vStr r.stderr)] := by
  refine ⟨by simp [git_clone, h], rfl, ?_, by simp [cloneCmd], by simp [git_clone, h]⟩
  intro d hd
  simp [cloneCmd, hd]

theorem git_clone_amended_witness :
    (git_clone wOk "u" (some "d")).2 = [["git", "clone", "u", "d"]] ∧
    (git_clone wOk "u" (some "d")).1 = [("success", Value.vBool true),
        ("output", Value.vStr "out"), ("error", Value.vStr "err")] := by
  have h := git_clone_amended wOk "u" (some "d") ⟨0, "out", "err"⟩ rfl
  have hc := h.2.2.1 "d" (by decide)
  constructor
  · rw [h.1, hc]
  · rw [h.2.2.2.2]; decide

/-- C8: exactly one push command is issued, with the given remote and branch
as the two positional arguments; omitting them pushes to origin/main; the
response is {success = exit == 0, output = stdout, error = stderr}. -/
theorem git_push_spec (w : World) (remote branch : String) (r : ExecResult)
    (h : w (pushCmd remote branch) = .ok r) :
    (git_push w remote branch).2 = [pushCmd remote branch] ∧
    git_push w = git_push w "origin" "main" ∧
    (git_push w remote branch).1 = [("success", Value.vBool (r.returncode == 0)),
        ("output", Value.vStr r.stdout), ("error", Value.vStr r.stderr)] := by
  exact ⟨by simp [git_push, h], rfl, by simp [git_push, h]⟩

theorem git_push_spec_witness :
    (git_push wOk "origin" "main").2 = [["git", "push", "origin", "main"]] ∧
    (git_push wOk "origin" "main").1 = [("success", Value.vBool true),
        ("output", Value.vStr "out"), ("error", Value.vStr "err")] := by
  have h := git_push_spec wOk "origin" "main" ⟨0, "out", "err"⟩ rfl
  exact ⟨by rw [h.1]; rfl, h.2.2⟩

/-- A world for CreateBranch: the creation exits 0, the switch exits 1. -/
def wC2 : World := fun c =>
  if c = branchCmd "feature" then .ok ⟨0, "", ""⟩
  else if c = checkoutCmd "feature" then .ok ⟨1, "", ""⟩
  else .err "unused"

/-- C2: the claim says the response is {success = creation success,
branch, checked_out} regardless of the switch step's outcome; but the switch
runs with check=True, so a non-zero switch exit raises and the handler
returns the uniform fallback instead. -/
theorem git_create_branch_claim_cex :
    (git_create_branch wC2 "feature" true).1 ≠
      [("success", Value.vBool true), ("branch", Value.vStr "feature"),
       ("checked_out", Value.vBool true)] := by decide

/-- C2 (amended): the switch call is issued only when the creation call exits
0 and checkout is true; with checkout=false no switch call occurs and the
response reports checked_out=false; when the switch is skipped or exits 0 the
response is {success = creation exit == 0, branch = branch_name, checked_out =
the flag as requested}; a switch that exits non-zero raises and is converted
by the operation boundary to {success=false, error=message}. -/
theorem git_create_branch_amended (w : World) (name : String)
    (r r2 : ExecResult) (hb : w (branchCmd name) = .ok r)
    (hc : w (checkoutCmd name) = .ok r2) :
    git_create_branch w name false =
      ([("success", Value.vBool (r.returncode == 0)),
        ("branch", Value.vStr name), ("checked_out", Value.vBool false)],
       [branchCmd name]) ∧
    (r.returncode ≠ 0 →
      git_create_branch w name true =
        ([("success", Value.vBool false), ("branch", Value.vStr name),
          ("checked_out", Value.vBool true)], [branchCmd name])) ∧
    (r.returncode = 0 → r2.returncode = 0 →
      git_create_branch w name true =
        ([("success", Value.vBool true), ("branch", Value.vStr name),
          ("checked_out", Value.vBool true)],
         [branchCmd name, checkoutCmd name])) ∧
    (r.returncode = 0 → r2.returncode ≠ 0 →
      git_create_branch w name true =
        (errResp (cpeMsg (checkoutCmd name) r2.returncode),
         [branchCmd name, checkoutCmd name])) := by
  refine ⟨by simp [git_create_branch, hb], ?_, ?_, ?_⟩
  · intro h0
    simp [git_create_branch, hb, beq_eq_false_iff_ne.mpr h0]
  · intro h0 h2
    simp [git_create_branch, hb, h0, runChecked, hc, h2]
  · intro h0 h2
    simp [git_create_branch, hb, h0, runChecked, hc, h2]

theorem git_create_branch_amended_witness :
    git_create_branch wC2 "feature" true =
      (errResp (cpeMsg (checkoutCmd "feature") 1),
       [branchCmd "feature", checkoutCmd "feature"]) := by
  have h := git_create_branch_amended wC2 "feature" ⟨0, "", ""⟩ ⟨1, "", ""⟩ rfl rfl
  exact h.2.2.2 rfl (by decide)

/-- C9: Status and BranchList are deterministic functions of what the external
tool does for their single command: two invocations against worlds that agree
on that command (no intervening repository mutation) return identical
responses. -/
theorem git_status_branch_list_deterministic (w₁ w₂ : World)
    (hs : w₁ statusCmd = w₂ statusCmd)
    (hb : w₁ branchListCmd = w₂ branchListCmd) :
    git_status w₁ = git_status w₂ ∧ git_branch_list w₁ = git_branch_list w₂ := by
  unfold git_status git_branch_list
  rw [hs, hb]
  exact ⟨rfl, rfl⟩

theorem git_status_branch_list_deterministic_witness :
    git_status wOk = git_status wOk ∧ git_branch_list wOk = git_branch_list wOk :=
  git_status_branch_list_deterministic wOk wOk rfl rfl

/-- C10: when the branch-list process runs but exits non-zero, the response is
{success=false, branches = the parse of whatever stdout was produced}; the
branches field is computed from stdout regardless of exit code and no error
field is present. -/
theorem git_branch_list_nonzero_exit (w : World) (r : ExecResult)
    (h : w branchListCmd = .ok r) (hne : r.returncode ≠ 0) :
    (git_branch_list w).1 = [("success", Value.vBool false),
        ("branches", Value.vList (gitBranchParse r.stdout))] ∧
    ((git_branch_list w).1).lookup "error" = none := by
  have hb : (r.returncode == 0) = false := beq_eq_false_iff_ne.mpr hne
  refine ⟨by simp [git_branch_list, h, hb], ?_⟩
  simp [git_branch_list, h, hb, List.lookup]

/-- A branch-list world: exit 1 with a current-branch line on stdout. -/
def wBL : World := fun c =>
  if c = branchListCmd then .ok ⟨1, "* main\n", "fatal"⟩ else .err "unused"

theorem git_branch_list_nonzero_exit_witness :
    (git_branch_list wBL).1 = [("success", Value.vBool false),
        ("branches", Value.vList ["main"])] ∧
    ((git_branch_list wBL).1).lookup "error" = none := by
  have h := git_branch_list_nonzero_exit wBL ⟨1, "* main\n", "fatal"⟩ rfl (by decide)
  exact ⟨by rw [h.1]; decide, h.2⟩

/-- C7: when staging succeeded and the commit process launched, the response
is {success = commit exit == 0, commit_message = the input message, output =
the commit's stdout}: stderr is not surfaced and no error field is present. -/
theorem git_commit_result_fields (w : World) (msg : String)
    (files : Option (List String)) (tr : List Cmd) (r : ExecResult)
    (hstage : stagePhase w files = (none, tr))
    (hc : w (commitCmd msg) = .ok r) :
    (git_commit w msg files).1 = [("success", Value.vBool (r.returncode == 0)),
        ("commit_message", Value.vStr msg), ("output", Value.vStr r.stdout)] ∧
    ((git_commit w msg files).1).lookup "error" = none ∧
    ((git_commit w msg files).1).lookup "output" = some (Value.vStr r.stdout) := by
  refine ⟨by simp [git_commit, hstage, hc], ?_, ?_⟩
  · simp [git_commit, hstage, hc, List.lookup]
  · simp [git_commit, hstage, hc, List.lookup]

/-- A commit world: staging exits 0 silently, the commit exits 1 with
distinct stdout and stderr. -/
def wCommit : World := fun c =>
  if c = commitCmd "m" then .ok ⟨1, "stdout-text", "stderr-text"⟩
  else .ok ⟨0, "", ""⟩

theorem git_commit_result_fields_witness :
    (git_commit wCommit "m" none).1 = [("success", Value.vBool false),
        ("commit_message", Value.vStr "m"), ("output", Value.vStr "stdout-text")] ∧
    ((git_commit wCommit "m" none).1).lookup "error" = none := by
  have h := git_commit_result_fields wCommit "m" none [addAllCmd]
    ⟨1, "stdout-text", "stderr-text"⟩ (by decide) rfl
  exact ⟨by rw [h.1]; decide, h.2.1⟩

theorem stagePhase_of_ne_nil (w : World) (l : List String) (h : l ≠ []) :
    stagePhase w (some l) = stageLoop w l := by
  cases l with
  | nil => exact absurd rfl h
  | cons g gs => rfl

/-- When every staging call succeeds, the loop issues one add per path, in
order, and raises nothing. -/
theorem stageLoop_all_ok (w : World) (l : List String)
    (h : ∀ f ∈ l, runChecked w (addCmd f) = none) :
    stageLoop w l = (none, l.map addCmd) := by
  induction l with
  | nil => rfl
  | cons f fs ih =>
    have hf := h f (List.mem_cons_self _ _)
    have hrest := ih fun g hg => h g (List.mem_cons_of_mem _ hg)
    simp [stageLoop, hf, hrest]

/-- When the staging calls succeed up to a path whose call fails, the loop
stops there: the paths before the failing one are staged in order, the failing
path is attempted, and nothing after it is touched. -/
theorem stageLoop_fails (w : World) (m : String) (l₁ : List String)
    (f : String) (l₂ : List String)
    (h1 : ∀ g ∈ l₁, runChecked w (addCmd g) = none)
    (hf : runChecked w (addCmd f) = some m) :
    stageLoop w (l₁ ++ f :: l₂) = (some m, (l₁ ++ [f]).map addCmd) := by
  induction l₁ with
  | nil => simp [stageLoop, hf]
  | cons g gs ih =>
    have hg := h1 g (List.mem_cons_self _ _)
    have hrest := ih fun x hx => h1 x (List.mem_cons_of_mem _ hx)
    simp [stageLoop, hg, hrest]

/-- C3: with a non-empty file list every path is staged individually in the
given order before the commit command; if one staging call fails, the later
paths are never staged, no commit command is issued, and the failure surfaces
as the uniform fallback; with files absent or empty, exactly one whole-tree
staging call precedes the commit command. -/
theorem git_commit_staging (w : World) (msg m : String) (l₁ : List String)
    (f : String) (l₂ : List String) :
    ((∀ g ∈ l₁ ++ f :: l₂, runChecked w (addCmd g) = none) →
      (git_commit w msg (some (l₁ ++ f :: l₂))).2 =
        (l₁ ++ f :: l₂).map addCmd ++ [commitCmd msg]) ∧
    ((∀ g ∈ l₁, runChecked w (addCmd g) = none) →
      runChecked w (addCmd f) = some m →
      (git_commit w msg (some (l₁ ++ f :: l₂))).2 = (l₁ ++ [f]).map addCmd ∧
      commitCmd msg ∉ (git_commit w msg (some (l₁ ++ f :: l₂))).2 ∧
      (git_commit w msg (some (l₁ ++ f :: l₂))).1 = errResp m) ∧
    (runChecked w addAllCmd = none →
      (git_commit w msg none).2 = [addAllCmd, commitCmd msg] ∧
      (git_commit w msg (some [])).2 = [addAllCmd, commitCmd msg]) := by
  refine ⟨?_, ?_, ?_⟩
  · intro hall
    have hp : stagePhase w (some (l₁ ++ f :: l₂)) =
        (none, (l₁ ++ f :: l₂).map addCmd) := by
      rw [stagePhase_of_ne_nil w _ (by simp)]
      exact stageLoop_all_ok w _ hall
    cases hcw : w (commitCmd msg) <;> simp [git_commit, hp, hcw]
  · intro h1 hf
    have hp : stagePhase w (some (l₁ ++ f :: l₂)) =
        (some m, (l₁ ++ [f]).map addCmd) := by
      rw [stagePhase_of_ne_nil w _ (by simp)]
      exact stageLoop_fails w m l₁ f l₂ h1 hf
    refine ⟨by simp [git_commit, hp], ?_, by simp [git_commit, hp]⟩
    simp only [git_commit, hp]
    intro hmem
    rcases List.mem_map.mp hmem with ⟨g, _, hg⟩
    exact absurd (congrArg (fun l => l.get? 1) hg) (by simp [addCmd, commitCmd])
  · intro hA
    constructor <;> cases hcw : w (commitCmd msg) <;>
      simp [git_commit, stagePhase, hA, hcw]

/-- A commit world: staging `a.txt` exits 1, every other launch exits 0. -/
def wC3 : World := fun c =>
  if c = addCmd "a.txt" then .ok ⟨1, "", ""⟩ else .ok ⟨0, "", ""⟩

theorem git_commit_staging_witness :
    (git_commit wC3 "m" (some ["a.txt", "b.txt"])).2 = [addCmd "a.txt"] ∧
    (git_commit wC3 "m" (some ["a.txt", "b.txt"])).1 =
      errResp (cpeMsg (addCmd "a.txt") 1) := by
  have h := git_commit_staging wC3 "m" (cpeMsg (addCmd "a.txt") 1) []
    "a.txt" ["b.txt"]
  have h2 := h.2.1 (by simp) (by decide)
  exact ⟨h2.1, h2.2.2⟩

/-- C1: every operation, on every input and world, returns a dictionary whose
"success" entry is a boolean, and a launch failure of the operation's (first)
command is converted at the boundary to the uniform
{success=false, error=message} fallback. -/
theorem all_ops_well_formed (w : World) (url msg remote branch name : String)
    (dest : Option String) (files : Option (List String)) (co : Bool) :
    hasBoolSuccess (git_clone w url dest).1 ∧
    hasBoolSuccess (git_commit w msg files).1 ∧
    hasBoolSuccess (git_push w remote branch).1 ∧
    hasBoolSuccess (git_status w).1 ∧
    hasBoolSuccess (git_branch_list w).1 ∧
    hasBoolSuccess (git_create_branch w name co).1 ∧
    (∀ m, w (cloneCmd url dest) = .err m → (git_clone w url dest).1 = errResp m) ∧
    (∀ m, w (pushCmd remote branch) = .err m →
      (git_push w remote branch).1 = errResp m) ∧
    (∀ m, w statusCmd = .err m → (git_status w).1 = errResp m) ∧
    (∀ m, w branchListCmd = .err m → (git_branch_list w).1 = errResp m) ∧
    (∀ m, w (branchCmd name) = .err m →
      (git_create_branch w name co).1 = errResp m) ∧
    (∀ m, w addAllCmd = .err m → (git_commit w msg none).1 = errResp m) := by
  refine ⟨?_, ?_, ?_, ?_, ?_, ?_, ?_, ?_, ?_, ?_, ?_, ?_⟩
  · cases h : w (cloneCmd url dest) with
    | ok r => exact ⟨r.returncode == 0, by simp [git_clone, h, List.lookup]⟩
    | err m => exact ⟨false, by simp [git_clone, h, errResp, List.lookup]⟩
  · rcases hp : stagePhase w files with ⟨e, tr⟩
    cases e with
    | some m => exact ⟨false, by simp [git_commit, hp, errResp, List.lookup]⟩
    | none =>
      cases hc : w (commitCmd msg) with
      | ok r => exact ⟨r.returncode == 0, by simp [git_commit, hp, hc, List.lookup]⟩
      | err m => exact ⟨false, by simp [git_commit, hp, hc, errResp, List.lookup]⟩
  · cases h : w (pushCmd remote branch) with
    | ok r => exact ⟨r.returncode == 0, by simp [git_push, h, List.lookup]⟩
    | err m => exact ⟨false, by simp [git_push, h, errResp, List.lookup]⟩
  · cases h : w statusCmd with
    | ok r => exact ⟨r.returncode == 0, by simp [git_status, h, List.lookup]⟩
    | err m => exact ⟨false, by simp [git_status, h, errResp, List.lookup]⟩
  · cases h : w branchListCmd with
    | ok r => exact ⟨r.returncode == 0, by simp [git_branch_list, h, List.lookup]⟩
    | err m => exact ⟨false, by simp [git_branch_list, h, errResp, List.lookup]⟩
  · cases h : w (branchCmd name) with
    | ok r =>
      by_cases hco : (co && (r.returncode == 0)) = true
      · cases hch : runChecked w (checkoutCmd name) with
        | some m =>
          exact ⟨false, by simp [git_create_branch, h, hco, hch, errResp, List.lookup]⟩
        | none => exact ⟨r.returncode == 0, by simp [git_create_branch, h, hco, hch, List.lookup]⟩
      · exact ⟨r.returncode == 0, by simp [git_create_branch, h, hco, List.lookup]⟩
    | err m => exact ⟨false, by simp [git_create_branch, h, errResp, List.lookup]⟩
  · intro m hm; simp [git_clone, hm]
  · intro m hm; simp [git_push, hm]
  · intro m hm; simp [git_status, hm]
  · intro m hm; simp [git_branch_list, hm]
  · intro m hm; cases co <;> simp [git_create_branch, hm]
  · intro m hm; simp [git_commit, stagePhase, runChecked, hm]

theorem all_ops_well_formed_witness :
    hasBoolSuccess (git_clone wErr "u" none).1 ∧
    (git_clone wErr "u" none).1 = errResp "boom" := by
  have h := all_ops_well_formed wErr "u" "m" "origin" "main" "b" none none true
  exact ⟨h.1, h.2.2.2.2.2.2.1 "boom" rfl⟩
